import Mathlib

/-!
# Verification of the `recognize` streaming transcription core

A shallow embedding, in Lean 4, of the streaming audio-segmentation and
dual-mode transcription pipeline of the `recognize` CLI (the bilingual-capable
main in the repository source, together with the legacy
`whisper-stream-coreml.cpp` variant, which shares the windowing, backpressure
and auto-copy logic verbatim).

Conventions of the embedding:
* Machine integers (`int32_t`, `int64_t`) are modelled as `Int` (timestamps,
  millisecond parameters) or `Nat` (sample counts, sizes); none of the modelled
  quantities approaches overflow in the source's intended ranges.
* `float` confidences are modelled as `ℚ`; the structure of the arithmetic
  (sums, counts, pairwise halving) is preserved exactly.
* PCM sample buffers are `List α` for an arbitrary sample type `α`; the code
  never inspects sample values in the logic modelled here.
* Byte sizes of strings are modelled by `String.length`; the source compares
  `std::string::size()` against a byte cap, and only the monotone growth of the
  buffer and the shape of the comparison matter for the properties proved here.
-/

set_option autoImplicit false

namespace Recognize

/-- One transcribed segment as returned by one inference pass: timestamps in
engine ticks, UTF-8 text, the per-token probabilities used to compute the
segment's mean confidence, and the speaker-turn flag. -/
structure Seg where
  t0 : Int
  t1 : Int
  text : String
  tokenProbs : List ℚ
  speakerTurn : Bool
deriving Repr, DecidableEq

/-- Mean per-token probability of a segment, `0` if it has no tokens; embeds
the confidence-accumulation loops of `process_audio_segment` (sum the token
probabilities, divide by the token count when positive). -/
def segConfidence (s : Seg) : ℚ :=
  if s.tokenProbs.length > 0 then s.tokenProbs.sum / s.tokenProbs.length else 0

/-- Merge of one original-language segment with zero or more overlapping
translated segments, as built by `process_audio_segment`. -/
structure BilingualSegment where
  t0 : Int
  t1 : Int
  original_text : String
  english_text : String
  original_confidence : ℚ
  english_confidence : ℚ
  speaker_turn : Bool
deriving Repr, DecidableEq

/-- The overlap test of the bilingual merge loop:
`overlap_start = max(seg.t0, trans_t0)`, `overlap_end = min(seg.t1, trans_t1)`,
merged iff `overlap_end > overlap_start`. -/
def overlaps (o t : Seg) : Bool :=
  decide (max o.t0 t.t0 < min o.t1 t.t1)

/-- The inner `for (j ...)` loop of `process_audio_segment` in bilingual mode:
scan the pass-2 (translated) segments in arrival order and fold each
overlapping one into the partially built `BilingualSegment` — set the english
text if it is still empty, otherwise append `" " ++ text`; then, if the
translated segment has tokens, replace the english confidence by the pairwise
average with that segment's mean confidence. -/
def mergeTransLoop (seg : BilingualSegment) : List Seg → BilingualSegment
  | [] => seg
  | t :: rest =>
    let overlapStart := max seg.t0 t.t0
    let overlapEnd := min seg.t1 t.t1
    let seg' :=
      if overlapStart < overlapEnd then
        let seg1 :=
          if seg.english_text = "" then
            { seg with english_text := t.text }
          else
            { seg with english_text := seg.english_text ++ " " ++ t.text }
        if t.tokenProbs.length > 0 then
          { seg1 with english_confidence := (seg1.english_confidence + segConfidence t) / 2 }
        else
          seg1
      else
        seg
    mergeTransLoop seg' rest

/-- The `BilingualSegment` seeded from one pass-1 segment before the merge
loop runs: timestamps, text, confidence and speaker flag from the original
segment, empty english side. -/
def initialBilingual (o : Seg) : BilingualSegment :=
  { t0 := o.t0
    t1 := o.t1
    original_text := o.text
    english_text := ""
    original_confidence := segConfidence o
    english_confidence := 0
    speaker_turn := o.speakerTurn }

/-- Bilingual merge of one pass-1 segment against the full pass-2 segment
list, as in the `bilingual` branch of `process_audio_segment`. -/
def processBilingualSegment (o : Seg) (trans : List Seg) : BilingualSegment :=
  mergeTransLoop (initialBilingual o) trans

/-- The `bilingual` branch of `process_audio_segment`: one output
`BilingualSegment` per pass-1 segment, in pass-1 order. -/
def processAudioSegmentBilingual (origs trans : List Seg) : List BilingualSegment :=
  origs.map (fun o => processBilingualSegment o trans)

/-- One text-merge step: replace an empty accumulator, otherwise append with a
single space separator. -/
def spaceJoinStep (acc t : String) : String :=
  if acc = "" then t else acc ++ " " ++ t

/-- The text accumulation of the merge loop, folded over a list of texts. -/
def spaceJoin (l : List String) : String :=
  l.foldl spaceJoinStep ""

/-- One confidence-merge step: pairwise average with the translated segment's
mean confidence when it has tokens, unchanged otherwise. -/
def confFoldStep (acc : ℚ) (t : Seg) : ℚ :=
  if t.tokenProbs.length > 0 then (acc + segConfidence t) / 2 else acc

/-- One text-merge step expressed on segments. -/
def textFoldStep (acc : String) (t : Seg) : String :=
  spaceJoinStep acc t.text

/-- Modelled from the spec: "concatenate their texts with a single space
separator" read literally as `String.intercalate " "` over the texts of the
overlapping pass-2 segments, in arrival order. Kept separate from the
source-derived merge so the two can be compared. -/
def specMergedText (o : Seg) (trans : List Seg) : String :=
  String.intercalate " " ((trans.filter (fun t => overlaps o t)).map Seg.text)

/-- Overlapping pass-2 segments of a pass-1 base segment, in arrival order. -/
def overlappingTrans (o : Seg) (trans : List Seg) : List Seg :=
  trans.filter (fun t => overlaps o t)

theorem mergeTransLoop_cons_overlap (seg : BilingualSegment) (t : Seg) (rest : List Seg)
    (h : max seg.t0 t.t0 < min seg.t1 t.t1) :
    mergeTransLoop seg (t :: rest) =
      mergeTransLoop
        { seg with
            english_text := textFoldStep seg.english_text t
            english_confidence := confFoldStep seg.english_confidence t } rest := by
  simp only [mergeTransLoop, if_pos h]
  by_cases ht : seg.english_text = "" <;>
    by_cases hp : t.tokenProbs.length > 0 <;>
      simp [textFoldStep, spaceJoinStep, confFoldStep, ht, hp]

theorem mergeTransLoop_cons_no_overlap (seg : BilingualSegment) (t : Seg) (rest : List Seg)
    (h : ¬ max seg.t0 t.t0 < min seg.t1 t.t1) :
    mergeTransLoop seg (t :: rest) = mergeTransLoop seg rest := by
  simp only [mergeTransLoop, if_neg h]

/-- Characterization of the interleaved merge loop: it is the fold of the
text step and the confidence step over exactly the overlapping pass-2
segments, in arrival order, and it touches no other field. -/
theorem mergeTransLoop_eq (trans : List Seg) (seg : BilingualSegment) :
    mergeTransLoop seg trans =
      { seg with
          english_text :=
            (trans.filter (fun t => decide (max seg.t0 t.t0 < min seg.t1 t.t1))).foldl
              textFoldStep seg.english_text
          english_confidence :=
            (trans.filter (fun t => decide (max seg.t0 t.t0 < min seg.t1 t.t1))).foldl
              confFoldStep seg.english_confidence } := by
  induction trans generalizing seg with
  | nil => rfl
  | cons t rest ih =>
    by_cases h : max seg.t0 t.t0 < min seg.t1 t.t1
    · rw [mergeTransLoop_cons_overlap seg t rest h, ih]
      rw [show (t :: rest).filter (fun s => decide (max seg.t0 s.t0 < min seg.t1 s.t1)) =
            t :: rest.filter (fun s => decide (max seg.t0 s.t0 < min seg.t1 s.t1)) from
          List.filter_cons_of_pos (decide_eq_true h),
        List.foldl_cons, List.foldl_cons]
    · rw [mergeTransLoop_cons_no_overlap seg t rest h, ih]
      rw [show (t :: rest).filter (fun s => decide (max seg.t0 s.t0 < min seg.t1 s.t1)) =
            rest.filter (fun s => decide (max seg.t0 s.t0 < min seg.t1 s.t1)) from
          List.filter_cons_of_neg (by simpa using h)]

/-- The merge of one pass-1 segment: explicit value of every field. -/
theorem processBilingualSegment_eq (o : Seg) (trans : List Seg) :
    processBilingualSegment o trans =
      { t0 := o.t0
        t1 := o.t1
        original_text := o.text
        english_text := (overlappingTrans o trans).foldl textFoldStep ""
        original_confidence := segConfidence o
        english_confidence := (overlappingTrans o trans).foldl confFoldStep 0
        speaker_turn := o.speakerTurn } := by
  rw [processBilingualSegment, mergeTransLoop_eq]
  rfl

theorem english_text_eq_spaceJoin (o : Seg) (trans : List Seg) :
    (processBilingualSegment o trans).english_text =
      spaceJoin ((overlappingTrans o trans).map Seg.text) := by
  rw [processBilingualSegment_eq, spaceJoin, List.foldl_map]
  rfl

theorem intercalate_go_eq (s : String) (l : List String) (acc : String) :
    String.intercalate.go acc s l = l.foldl (fun a x => a ++ s ++ x) acc := by
  induction l generalizing acc with
  | nil => rfl
  | cons x xs ih =>
    simp only [String.intercalate.go, List.foldl_cons]
    exact ih (acc ++ s ++ x)

theorem intercalate_cons_eq_foldl (s a : String) (l : List String) :
    String.intercalate s (a :: l) = l.foldl (fun acc x => acc ++ s ++ x) a := by
  simp only [String.intercalate]
  exact intercalate_go_eq s l a

theorem append_space_append_ne_empty (a x : String) : a ++ " " ++ x ≠ "" := by
  intro hcon
  have hlen := congrArg String.length hcon
  simp only [String.length_append, String.length_empty] at hlen
  have hsp : (" " : String).length = 1 := rfl
  rw [hsp] at hlen
  omega

theorem foldl_spaceJoinStep_of_ne (l : List String) (acc : String) (hacc : acc ≠ "") :
    l.foldl spaceJoinStep acc = l.foldl (fun a x => a ++ " " ++ x) acc := by
  induction l generalizing acc with
  | nil => rfl
  | cons x xs ih =>
    rw [List.foldl_cons, List.foldl_cons]
    rw [show spaceJoinStep acc x = acc ++ " " ++ x from by simp [spaceJoinStep, hacc]]
    exact ih (acc ++ " " ++ x) (append_space_append_ne_empty acc x)

/-- Whenever every joined piece is nonempty (in fact, whenever the first one
is), the code's accumulative join is exactly space-separated concatenation. -/
theorem spaceJoin_eq_intercalate (l : List String) (h : ∀ x ∈ l, x ≠ "") :
    spaceJoin l = String.intercalate " " l := by
  cases l with
  | nil => rfl
  | cons a as =>
    have ha : a ≠ "" := h a (List.mem_cons_self a as)
    rw [spaceJoin, List.foldl_cons]
    rw [show spaceJoinStep "" a = a from by simp [spaceJoinStep]]
    rw [intercalate_cons_eq_foldl, foldl_spaceJoinStep_of_ne as a ha]

/-- Concrete pass-1 segment for the C1 counterexample. -/
def c1Orig : Seg :=
  { t0 := 0, t1 := 100, text := "hola", tokenProbs := [1], speakerTurn := false }

/-- Concrete pass-2 segment with empty text, overlapping `c1Orig`. -/
def c1TransA : Seg :=
  { t0 := 0, t1 := 50, text := "", tokenProbs := [1], speakerTurn := false }

/-- Concrete pass-2 segment with nonempty text, overlapping `c1Orig`. -/
def c1TransB : Seg :=
  { t0 := 50, t1 := 100, text := "hello", tokenProbs := [1], speakerTurn := false }

/-- C1, counterexample. Both pass-2 segments overlap the pass-1 segment
`[0,100)`, but because the first overlapping translated text is empty the
code replaces the empty accumulator instead of space-joining: the merged
english text is `"hello"`, while concatenation of the overlapping texts with
a single space separator (the claim, read literally) gives `" hello"`. -/
theorem c1_counterexample :
    overlaps c1Orig c1TransA = true ∧ overlaps c1Orig c1TransB = true ∧
    (processBilingualSegment c1Orig [c1TransA, c1TransB]).english_text = "hello" ∧
    specMergedText c1Orig [c1TransA, c1TransB] = " hello" ∧
    (processBilingualSegment c1Orig [c1TransA, c1TransB]).english_text ≠
      specMergedText c1Orig [c1TransA, c1TransB] := by
  decide

/-- C1 (amended): in bilingual mode the output has exactly one
`BilingualSegment` per pass-1 segment, in pass-1 order, with timestamps and
original text taken from that segment; its english text is the fold, in
pass-2 arrival order over exactly the overlapping pass-2 segments
(`max(s1,s2) < min(e1,e2)`), of the join step that appends after a single
space when the accumulated text is nonempty and replaces it otherwise; when
every overlapping pass-2 text is nonempty this equals concatenation with a
single space separator. -/
theorem c1_bilingual_merge_amended (origs trans : List Seg) :
    (processAudioSegmentBilingual origs trans).length = origs.length ∧
    ∀ i (hi : i < origs.length) (hi2 : i < (processAudioSegmentBilingual origs trans).length),
      ((processAudioSegmentBilingual origs trans).get ⟨i, hi2⟩).t0 = (origs.get ⟨i, hi⟩).t0 ∧
      ((processAudioSegmentBilingual origs trans).get ⟨i, hi2⟩).t1 = (origs.get ⟨i, hi⟩).t1 ∧
      ((processAudioSegmentBilingual origs trans).get ⟨i, hi2⟩).original_text =
        (origs.get ⟨i, hi⟩).text ∧
      ((processAudioSegmentBilingual origs trans).get ⟨i, hi2⟩).english_text =
        spaceJoin ((overlappingTrans (origs.get ⟨i, hi⟩) trans).map Seg.text) ∧
      ((∀ t ∈ overlappingTrans (origs.get ⟨i, hi⟩) trans, t.text ≠ "") →
        ((processAudioSegmentBilingual origs trans).get ⟨i, hi2⟩).english_text =
          specMergedText (origs.get ⟨i, hi⟩) trans) := by
  constructor
  · simp [processAudioSegmentBilingual]
  · intro i hi hi2
    have hmap : (processAudioSegmentBilingual origs trans).get ⟨i, hi2⟩ =
        processBilingualSegment (origs.get ⟨i, hi⟩) trans := by
      simp [processAudioSegmentBilingual]
    refine ⟨?_, ?_, ?_, ?_, ?_⟩
    · rw [hmap, processBilingualSegment_eq]
    · rw [hmap, processBilingualSegment_eq]
    · rw [hmap, processBilingualSegment_eq]
    · rw [hmap, english_text_eq_spaceJoin]
    · intro hne
      rw [hmap, english_text_eq_spaceJoin, specMergedText]
      exact spaceJoin_eq_intercalate _ (by
        intro x hx
        rcases List.mem_map.mp hx with ⟨t, ht, rfl⟩
        exact hne t ht)

/-- C1, witness for the amended theorem at a concrete input. -/
theorem c1_witness :
    ((processAudioSegmentBilingual [c1Orig] [c1TransB]).get ⟨0, by decide⟩).english_text =
      specMergedText c1Orig [c1TransB] := by
  have h := (c1_bilingual_merge_amended [c1Orig] [c1TransB]).2 0 (by decide) (by decide)
  exact h.2.2.2.2 (by decide)

/-- Concrete pass-1 segment for the C3 counterexample. -/
def c3Orig : Seg :=
  { t0 := 0, t1 := 100, text := "hola", tokenProbs := [1], speakerTurn := false }

/-- Concrete pass-2 segment of mean confidence 1, fully overlapping `c3Orig`. -/
def c3Trans : Seg :=
  { t0 := 0, t1 := 100, text := "hello", tokenProbs := [1], speakerTurn := false }

/-- C3, counterexample. Exactly one pass-2 segment of mean confidence `1`
overlaps the pass-1 segment, yet the merged english confidence is `1/2`, not
`1`: the code averages pairwise against the initial `0` instead of taking
the mean of the merged pieces. -/
theorem c3_counterexample :
    overlaps c3Orig c3Trans = true ∧
    segConfidence c3Trans = 1 ∧
    (processBilingualSegment c3Orig [c3Trans]).english_confidence = 1 / 2 ∧
    (processBilingualSegment c3Orig [c3Trans]).english_confidence ≠ segConfidence c3Trans := by
  have hover : overlappingTrans c3Orig [c3Trans] = [c3Trans] := by decide
  have hconf : segConfidence c3Trans = 1 := by
    norm_num [segConfidence, c3Trans]
  have he : (processBilingualSegment c3Orig [c3Trans]).english_confidence = 1 / 2 := by
    rw [processBilingualSegment_eq, hover]
    show [c3Trans].foldl confFoldStep 0 = 1 / 2
    rw [List.foldl_cons, List.foldl_nil, confFoldStep, if_pos (by norm_num [c3Trans]), hconf]
    norm_num
  refine ⟨by decide, hconf, he, ?_⟩
  rw [he, hconf]
  norm_num

/-- C3 (amended): the merged english confidence is the left fold, starting
from `0` and in pass-2 arrival order over exactly the overlapping pass-2
segments, of the pairwise-average step `acc := (acc + c)/2` applied for each
overlapping segment that has tokens (segments without tokens leave the
running value unchanged); in particular a single overlapping segment of mean
confidence `c` yields `c/2`, not `c`. -/
theorem c3_confidence_pairwise_average (o : Seg) (trans : List Seg) :
    (processBilingualSegment o trans).english_confidence =
      (overlappingTrans o trans).foldl confFoldStep 0 := by
  rw [processBilingualSegment_eq]

/-- Concrete pass-1 segment for the C8 witness. -/
def c8Orig : Seg :=
  { t0 := 0, t1 := 10, text := "x", tokenProbs := [1], speakerTurn := false }

/-- Concrete pass-2 segment disjoint from `c8Orig`. -/
def c8Trans : Seg :=
  { t0 := 20, t1 := 30, text := "y", tokenProbs := [1], speakerTurn := false }

/-- C8: a pass-1 segment with zero overlapping pass-2 segments yields an
empty english text and english confidence `0`; the merge is a total function,
so this case cannot crash. -/
theorem c8_no_overlap_fallback (o : Seg) (trans : List Seg)
    (h : ∀ t ∈ trans, overlaps o t = false) :
    (processBilingualSegment o trans).english_text = "" ∧
    (processBilingualSegment o trans).english_confidence = 0 := by
  have hfilter : overlappingTrans o trans = [] := by
    rw [overlappingTrans]
    exact List.filter_eq_nil_iff.mpr (by intro a ha; simp [h a ha])
  rw [processBilingualSegment_eq, hfilter]
  exact ⟨rfl, rfl⟩

/-- C8, witness at a concrete disjoint pair. -/
theorem c8_witness :
    (processBilingualSegment c8Orig [c8Trans]).english_text = "" ∧
    (processBilingualSegment c8Orig [c8Trans]).english_confidence = 0 :=
  c8_no_overlap_fallback c8Orig [c8Trans] (by decide)

/-- Millisecond window parameters as configured before the main loop. -/
structure WindowParams where
  step_ms : Int
  length_ms : Int
  keep_ms : Int
deriving Repr, DecidableEq

/-- The configuration-time adjustment performed just before sample counts are
derived: `keep_ms = min(keep_ms, step_ms); length_ms = max(length_ms, step_ms)`. -/
def adjustWindowParams (p : WindowParams) : WindowParams :=
  { p with
      keep_ms := min p.keep_ms p.step_ms
      length_ms := max p.length_ms p.step_ms }

/-- C9: after the configuration-time adjustment, the windowing invariant
`keep_ms ≤ step_ms ≤ length_ms` holds for every integer input triple. -/
theorem c9_windowing_invariant (p : WindowParams) :
    (adjustWindowParams p).keep_ms ≤ (adjustWindowParams p).step_ms ∧
    (adjustWindowParams p).step_ms ≤ (adjustWindowParams p).length_ms := by
  constructor
  · exact min_le_right p.keep_ms p.step_ms
  · exact le_max_right p.length_ms p.step_ms

/-- The `n_samples_take` computation of the continuous-mode loop:
`min((int) pcmf32_old.size(), max(0, n_samples_keep + n_samples_len - n_samples_new))`.
Sample counts are nonnegative, so the `int` arithmetic is carried out in `Int`
and the result read back as a `Nat`. -/
def takeCount (keepS lenS oldLen newLen : Nat) : Nat :=
  min oldLen (max 0 ((keepS : Int) + (lenS : Int) - (newLen : Int))).toNat

/-- Rolling-window state of the continuous-mode loop: the retained buffer
`pcmf32_old` and the chunk counter `n_iter`. -/
structure ContState (α : Type) where
  pcmf32_old : List α
  n_iter : Nat
deriving Repr, DecidableEq

/-- One continuous-mode loop iteration, given the new samples pulled for this
step: build the chunk as the last `n_samples_take` retained samples followed
by the new samples, set `pcmf32_old` to the whole chunk, run inference (opaque
here), increment `n_iter`, and — on every `n_new_line`-th iteration — reset
`pcmf32_old` to the last `keepS` samples of the chunk. Returns the new state
and the chunk handed to inference. -/
def contStep {α : Type} (keepS lenS nNewLine : Nat) (s : ContState α)
    (pcmf32_new : List α) : ContState α × List α :=
  let nTake := takeCount keepS lenS s.pcmf32_old.length pcmf32_new.length
  let chunk := s.pcmf32_old.drop (s.pcmf32_old.length - nTake) ++ pcmf32_new
  let nIter := s.n_iter + 1
  let old := if nIter % nNewLine = 0 then chunk.drop (chunk.length - keepS) else chunk
  (⟨old, nIter⟩, chunk)

theorem contStep_chunk_eq {α : Type} (keepS lenS nNewLine : Nat) (s : ContState α)
    (pnew : List α) :
    (contStep keepS lenS nNewLine s pnew).2 =
      s.pcmf32_old.drop
          (s.pcmf32_old.length - takeCount keepS lenS s.pcmf32_old.length pnew.length) ++
        pnew := rfl

theorem contStep_n_iter_eq {α : Type} (keepS lenS nNewLine : Nat) (s : ContState α)
    (pnew : List α) :
    (contStep keepS lenS nNewLine s pnew).1.n_iter = s.n_iter + 1 := rfl

theorem contStep_old_cases {α : Type} (keepS lenS nNewLine : Nat) (s : ContState α)
    (pnew : List α) :
    (contStep keepS lenS nNewLine s pnew).1.pcmf32_old =
      (if (s.n_iter + 1) % nNewLine = 0 then
        ((contStep keepS lenS nNewLine s pnew).2).drop
          (((contStep keepS lenS nNewLine s pnew).2).length - keepS)
      else (contStep keepS lenS nNewLine s pnew).2) := rfl

theorem contStep_old_of_mod_ne {α : Type} (keepS lenS nNewLine : Nat) (s : ContState α)
    (pnew : List α) (h : (s.n_iter + 1) % nNewLine ≠ 0) :
    (contStep keepS lenS nNewLine s pnew).1.pcmf32_old =
      (contStep keepS lenS nNewLine s pnew).2 := by
  rw [contStep_old_cases, if_neg h]

theorem contStep_old_of_mod_eq {α : Type} (keepS lenS nNewLine : Nat) (s : ContState α)
    (pnew : List α) (h : (s.n_iter + 1) % nNewLine = 0) :
    (contStep keepS lenS nNewLine s pnew).1.pcmf32_old =
      ((contStep keepS lenS nNewLine s pnew).2).drop
        (((contStep keepS lenS nNewLine s pnew).2).length - keepS) := by
  rw [contStep_old_cases, if_pos h]

/-- C2, counterexample. With the default configuration
(`step = 3000 ms, length = 10000 ms, keep = 200 ms`, hence
`n_samples_keep = 3200`, `n_samples_len = 160000`, `n_new_line = 2` at
16 kHz), start from the initial empty carry and feed exactly one step of new
audio (48000 samples): after this first inference the carry is the whole
48000-sample chunk, not its 3200-sample tail, so neither
`len(carry) ≤ keep_samples` nor "after each inference the tail keep_samples
becomes the new carry" holds at every iteration. -/
theorem c2_counterexample :
    ((contStep 3200 160000 2 ⟨([] : List Int), 0⟩ (List.replicate 48000 0)).1).pcmf32_old.length
      = 48000 ∧ ¬ (48000 ≤ 3200) := by
  constructor
  · rw [contStep_old_of_mod_ne 3200 160000 2 ⟨([] : List Int), 0⟩ (List.replicate 48000 0)
        (by decide), contStep_chunk_eq]
    dsimp only
    rw [List.drop_nil, List.nil_append, List.length_replicate]
  · decide

/-- C2 (amended): at every continuous-mode iteration the chunk fed to
inference is `c ++ new_samples` for a suffix `c` of the current carry of
length `min(len(carry), max(0, keep_samples + len_samples − len(new)))`, so
`len(chunk) = len(c) + len(new)`; the full `carry ++ new_samples` form holds
exactly when the carry fits, i.e. `len(carry) ≤ keep_samples + len_samples −
len(new)`; after the iteration the carry is the entire just-processed chunk,
except on every `n_new_line`-th iteration, where it is reset to the tail
`keep_samples` of the chunk — only there (and initially) is
`0 ≤ len(carry) ≤ keep_samples` guaranteed. -/
theorem c2_chunk_composition {α : Type} (keepS lenS nNewLine : Nat) (s : ContState α)
    (pnew : List α) (_hnl : 0 < nNewLine) :
    (∃ c, c <:+ s.pcmf32_old ∧
      (contStep keepS lenS nNewLine s pnew).2 = c ++ pnew ∧
      c.length = takeCount keepS lenS s.pcmf32_old.length pnew.length ∧
      (contStep keepS lenS nNewLine s pnew).2.length = c.length + pnew.length) ∧
    ((s.pcmf32_old.length : Int) ≤ (keepS : Int) + (lenS : Int) - (pnew.length : Int) →
      (contStep keepS lenS nNewLine s pnew).2 = s.pcmf32_old ++ pnew) ∧
    ((contStep keepS lenS nNewLine s pnew).1.n_iter % nNewLine = 0 →
      (contStep keepS lenS nNewLine s pnew).1.pcmf32_old.length ≤ keepS ∧
      (contStep keepS lenS nNewLine s pnew).1.pcmf32_old <:+
        (contStep keepS lenS nNewLine s pnew).2) ∧
    ((contStep keepS lenS nNewLine s pnew).1.n_iter % nNewLine ≠ 0 →
      (contStep keepS lenS nNewLine s pnew).1.pcmf32_old =
        (contStep keepS lenS nNewLine s pnew).2) := by
  have htake : takeCount keepS lenS s.pcmf32_old.length pnew.length ≤ s.pcmf32_old.length :=
    min_le_left _ _
  refine ⟨?_, ?_, ?_, ?_⟩
  · refine ⟨s.pcmf32_old.drop (s.pcmf32_old.length -
        takeCount keepS lenS s.pcmf32_old.length pnew.length), List.drop_suffix _ _, rfl, ?_, ?_⟩
    · rw [List.length_drop]
      omega
    · show (s.pcmf32_old.drop _ ++ pnew).length = _
      rw [List.length_append]
  · intro hfit
    show s.pcmf32_old.drop (s.pcmf32_old.length -
        takeCount keepS lenS s.pcmf32_old.length pnew.length) ++ pnew = s.pcmf32_old ++ pnew
    have heq : takeCount keepS lenS s.pcmf32_old.length pnew.length = s.pcmf32_old.length := by
      rw [takeCount]
      have h0 : (0 : Int) ≤ (keepS : Int) + (lenS : Int) - (pnew.length : Int) := by
        have := Int.ofNat_nonneg s.pcmf32_old.length
        omega
      have hmax : max 0 ((keepS : Int) + (lenS : Int) - (pnew.length : Int)) =
          (keepS : Int) + (lenS : Int) - (pnew.length : Int) := max_eq_right h0
      rw [hmax]
      omega
    rw [heq]
    simp
  · intro hmod
    rw [contStep_n_iter_eq] at hmod
    have hold := contStep_old_of_mod_eq keepS lenS nNewLine s pnew hmod
    refine ⟨?_, ?_⟩
    · rw [hold, List.length_drop]
      omega
    · rw [hold]
      exact List.drop_suffix _ _
  · intro hmod
    rw [contStep_n_iter_eq] at hmod
    exact contStep_old_of_mod_ne keepS lenS nNewLine s pnew hmod

/-- C2, witness for the amended theorem: one reset-point iteration at small
concrete sizes. -/
theorem c2_witness :
    ((contStep 2 10 2 ⟨([1, 2, 3] : List Int), 1⟩ [4, 5]).1).pcmf32_old.length ≤ 2 :=
  ((c2_chunk_composition 2 10 2 ⟨([1, 2, 3] : List Int), 1⟩ [4, 5] (by decide)).2.2.1
    (by decide)).1

/-- Token-history state of the continuous-mode loop: the prompt tokens kept
for the next inference call and the chunk counter. Token ids are modelled as
`Int`. -/
structure CtxState where
  prompt_tokens : List Int
  n_iter : Nat
deriving Repr, DecidableEq

/-- One iteration of the context bookkeeping around an inference call: the
prompt handed to `whisper_full` is empty when `no_context` is set
(`prompt_tokens = nullptr / prompt_n_tokens = 0`) and the stored token history
otherwise; after the call the counter is incremented and, on every
`n_new_line`-th iteration with context carry-over enabled, the stored history
is rebuilt from the token ids of the segments just produced (`segTokens`, one
token list per segment, concatenated). Returns the new state and the prompt
that was passed to this call. -/
def ctxStep (no_context : Bool) (nNewLine : Nat) (s : CtxState)
    (segTokens : List (List Int)) : CtxState × List Int :=
  let passed := if no_context then [] else s.prompt_tokens
  let nIter := s.n_iter + 1
  let prompt :=
    if no_context = false ∧ nIter % nNewLine = 0 then segTokens.flatten else s.prompt_tokens
  (⟨prompt, nIter⟩, passed)

/-- The context bookkeeping iterated over a whole run; returns the final
state and the prompt passed to each inference call, in order. -/
def ctxRun (no_context : Bool) (nNewLine : Nat) :
    CtxState → List (List (List Int)) → CtxState × List (List Int)
  | s, [] => (s, [])
  | s, ts :: rest =>
    let stepped := ctxStep no_context nNewLine s ts
    let r := ctxRun no_context nNewLine stepped.1 rest
    (r.1, stepped.2 :: r.2)

theorem ctxStep_passed_true (nNewLine : Nat) (s : CtxState) (ts : List (List Int)) :
    (ctxStep true nNewLine s ts).2 = [] := rfl

theorem ctxStep_passed_false (nNewLine : Nat) (s : CtxState) (ts : List (List Int)) :
    (ctxStep false nNewLine s ts).2 = s.prompt_tokens := rfl

theorem ctxStep_prompt_cases (no_context : Bool) (nNewLine : Nat) (s : CtxState)
    (ts : List (List Int)) :
    (ctxStep no_context nNewLine s ts).1.prompt_tokens =
      (if no_context = false ∧ (s.n_iter + 1) % nNewLine = 0 then ts.flatten
       else s.prompt_tokens) := rfl

/-- C4: with context carry-over disabled (`no_context`), the prompt passed to
every inference call of a run is empty; with carry-over enabled, each call
receives the stored token history, and on every `n_new_line`-th chunk that
history is refreshed to the concatenated tokens of the segments just produced
— so the next call receives exactly those tokens — while on other chunks it
is left unchanged. -/
theorem c4_context_carryover (nNewLine : Nat) :
    (∀ (s : CtxState) (traces : List (List (List Int))),
      ∀ p ∈ (ctxRun true nNewLine s traces).2, p = []) ∧
    (∀ (s : CtxState) (ts : List (List Int)),
      (ctxStep false nNewLine s ts).2 = s.prompt_tokens) ∧
    (∀ (s : CtxState) (ts : List (List Int)),
      ((s.n_iter + 1) % nNewLine = 0 →
        (ctxStep false nNewLine s ts).1.prompt_tokens = ts.flatten ∧
        ∀ ts2, (ctxStep false nNewLine ((ctxStep false nNewLine s ts).1) ts2).2 = ts.flatten) ∧
      ((s.n_iter + 1) % nNewLine ≠ 0 →
        (ctxStep false nNewLine s ts).1.prompt_tokens = s.prompt_tokens)) := by
  refine ⟨?_, ?_, ?_⟩
  · intro s traces
    induction traces generalizing s with
    | nil =>
      intro p hp
      simp [ctxRun] at hp
    | cons ts rest ih =>
      intro p hp
      simp only [ctxRun] at hp
      rcases List.mem_cons.mp hp with hp1 | hp2
      · rw [hp1, ctxStep_passed_true]
      · exact ih _ p hp2
  · intro s ts
    exact ctxStep_passed_false nNewLine s ts
  · intro s ts
    constructor
    · intro hmod
      have hprompt : (ctxStep false nNewLine s ts).1.prompt_tokens = ts.flatten := by
        rw [ctxStep_prompt_cases, if_pos ⟨rfl, hmod⟩]
      refine ⟨hprompt, ?_⟩
      intro ts2
      rw [ctxStep_passed_false, hprompt]
    · intro hmod
      rw [ctxStep_prompt_cases, if_neg (by
        intro hcon
        exact hmod hcon.2)]

/-- C4, witness: with `n_new_line = 2` and the counter at 1, the second chunk
is a refresh point and the third call receives the refreshed tokens; and a
`no_context` run passes an empty prompt. -/
theorem c4_witness :
    (ctxStep false 2 ⟨[7], 1⟩ [[1, 2], [3]]).1.prompt_tokens = [1, 2, 3] ∧
    (∀ p ∈ (ctxRun true 2 ⟨[7], 0⟩ [[[1]], [[2]]]).2, p = []) := by
  constructor
  · have h := ((c4_context_carryover 2).2.2 ⟨[7], 1⟩ [[1, 2], [3]]).1 (by decide)
    rw [h.1]
    decide
  · exact (c4_context_carryover 2).1 ⟨[7], 0⟩ [[[1]], [[2]]]

/-- The inner polling loop of the continuous mode, abstracted over the
successive results of `audio.get(step_ms, pcmf32_new)`: a pull larger than
`2 * n_samples_step` is a backpressure failure — a warning is printed,
`audio.clear()` is called and the pull is dropped (first component of the
result, in order); the first pull with at least `n_samples_step` samples (and
not over-full) is accepted and handed on to chunk formation (second
component); smaller pulls sleep and poll again. -/
def pollLoop {α : Type} (nStep : Nat) : List (List α) → List (List α) × Option (List α)
  | [] => ([], none)
  | p :: rest =>
    if 2 * nStep < p.length then
      ((p :: (pollLoop nStep rest).1), (pollLoop nStep rest).2)
    else if nStep ≤ p.length then
      ([], some p)
    else
      pollLoop nStep rest

theorem pollLoop_dropped_overfull {α : Type} (nStep : Nat) (pulls : List (List α)) :
    ∀ p ∈ (pollLoop nStep pulls).1, 2 * nStep < p.length := by
  induction pulls with
  | nil =>
    intro p hp
    simp [pollLoop] at hp
  | cons q rest ih =>
    intro p hp
    simp only [pollLoop] at hp
    by_cases h1 : 2 * nStep < q.length
    · rw [if_pos h1] at hp
      rcases List.mem_cons.mp hp with hp1 | hp2
      · rw [hp1]; exact h1
      · exact ih p hp2
    · rw [if_neg h1] at hp
      by_cases h2 : nStep ≤ q.length
      · rw [if_pos h2] at hp
        simp at hp
      · rw [if_neg h2] at hp
        exact ih p hp

theorem pollLoop_accepted_in_range {α : Type} (nStep : Nat) (pulls : List (List α)) :
    ∀ c, (pollLoop nStep pulls).2 = some c → nStep ≤ c.length ∧ c.length ≤ 2 * nStep := by
  induction pulls with
  | nil =>
    intro c hc
    simp [pollLoop] at hc
  | cons q rest ih =>
    intro c hc
    simp only [pollLoop] at hc
    by_cases h1 : 2 * nStep < q.length
    · rw [if_pos h1] at hc
      exact ih c hc
    · rw [if_neg h1] at hc
      by_cases h2 : nStep ≤ q.length
      · rw [if_pos h2] at hc
        have hqc : q = c := by simpa using hc
        subst hqc
        exact ⟨h2, by omega⟩
      · rw [if_neg h2] at hc
        exact ih c hc

/-- C5: in continuous mode, every pull recorded as dropped (with a warning
and an `audio.clear()`) holds more than `2 * n_samples_step` samples; the
pull accepted for inference always holds between `n_samples_step` and
`2 * n_samples_step` samples — an over-full pull is never forwarded; and an
over-full pull merely prepends itself to the drop record while polling
continues with the remaining pulls (recoverable, not fatal). -/
theorem c5_backpressure {α : Type} (nStep : Nat) (pulls : List (List α)) :
    (∀ p ∈ (pollLoop nStep pulls).1, 2 * nStep < p.length) ∧
    (∀ c, (pollLoop nStep pulls).2 = some c → nStep ≤ c.length ∧ c.length ≤ 2 * nStep) ∧
    (∀ (q : List α) (rest : List (List α)), 2 * nStep < q.length →
      pollLoop nStep (q :: rest) =
        ((q :: (pollLoop nStep rest).1), (pollLoop nStep rest).2)) := by
  refine ⟨pollLoop_dropped_overfull nStep pulls, pollLoop_accepted_in_range nStep pulls, ?_⟩
  intro q rest h
  simp only [pollLoop]
  rw [if_pos h]

/-- C5, witness: with `n_samples_step = 2`, the over-full pull of 5 samples
is dropped and polling continues; the accepted pull is in range. -/
theorem c5_witness :
    pollLoop 2 [([10, 20, 30, 40, 50] : List Int), [1, 2]] =
      ([[10, 20, 30, 40, 50]], some [1, 2]) ∧
    2 ≤ ([1, 2] : List Int).length ∧ ([1, 2] : List Int).length ≤ 2 * 2 := by
  constructor
  · rw [(c5_backpressure 2 [([10, 20, 30, 40, 50] : List Int), [1, 2]]).2.2
      [10, 20, 30, 40, 50] [[1, 2]] (by decide)]
    decide
  · exact (c5_backpressure 2 [([10, 20, 30, 40, 50] : List Int), [1, 2]]).2.1 [1, 2] (by decide)

/-- POSIX interrupt signal number, the only signal the handler reacts to. -/
def SIGINT : Int := 2

/-- The two process-wide atomics touched by the signal handler. -/
structure SignalState where
  g_interrupt_received : Bool
  g_is_recording : Bool
deriving Repr, DecidableEq

/-- The `signal_handler` of the bilingual main: on `SIGINT` while recording,
print the confirmation prompt and block on one raw keystroke — `y`/`Y` sets
the interrupt flag, anything else returns with the state unchanged (recording
resumes); on `SIGINT` while not recording, set the interrupt flag at once
with no prompt. `key` is the keystroke the blocking read would return; the
second component reports whether the confirmation prompt was shown. -/
def signal_handler (s : SignalState) (sig : Int) (key : Char) : SignalState × Bool :=
  if sig = SIGINT then
    if s.g_is_recording then
      if key = 'y' ∨ key = 'Y' then
        ({ s with g_interrupt_received := true }, true)
      else
        (s, true)
    else
      ({ s with g_interrupt_received := true }, false)
  else
    (s, false)

/-- C6, counterexample. Two consecutive interrupts while a recording is live,
each answered with `n`: both show the prompt, and after the second interrupt
the stop flag is still unset — a second interrupt does not proceed to
Stopping unconditionally; it re-prompts and obeys the answer. -/
theorem c6_counterexample :
    (signal_handler ⟨false, true⟩ SIGINT 'n').2 = true ∧
    (signal_handler ⟨false, true⟩ SIGINT 'n').1 = ⟨false, true⟩ ∧
    (signal_handler ((signal_handler ⟨false, true⟩ SIGINT 'n').1) SIGINT 'n').2 = true ∧
    ((signal_handler ((signal_handler ⟨false, true⟩ SIGINT 'n').1) SIGINT
        'n').1).g_interrupt_received = false := by
  decide

/-- C6 (amended): an interrupt while no recording is live sets the stop flag
immediately without prompting; an interrupt while recording always shows the
blocking confirmation prompt, sets the stop flag exactly when the answer is
`y` or `Y`, and leaves the state unchanged (recording resumes) on any other
answer — a second interrupt while still recording behaves identically, so
after two interrupts both answered with non-yes keys the stop flag is
unchanged. -/
theorem c6_interrupt_policy (s : SignalState) (key : Char) :
    (s.g_is_recording = false →
      signal_handler s SIGINT key = ({ s with g_interrupt_received := true }, false)) ∧
    (s.g_is_recording = true →
      (signal_handler s SIGINT key).2 = true ∧
      ((key = 'y' ∨ key = 'Y') →
        (signal_handler s SIGINT key).1 = { s with g_interrupt_received := true }) ∧
      (¬ (key = 'y' ∨ key = 'Y') → (signal_handler s SIGINT key).1 = s) ∧
      (∀ key2, ¬ (key = 'y' ∨ key = 'Y') → ¬ (key2 = 'y' ∨ key2 = 'Y') →
        ((signal_handler ((signal_handler s SIGINT key).1) SIGINT
            key2).1).g_interrupt_received = s.g_interrupt_received)) := by
  constructor
  · intro hrec
    simp [signal_handler, hrec]
  · intro hrec
    refine ⟨?_, ?_, ?_, ?_⟩
    · by_cases hk : key = 'y' ∨ key = 'Y' <;> simp [signal_handler, hrec, hk]
    · intro hk
      simp [signal_handler, hrec, hk]
    · intro hk
      simp [signal_handler, hrec, hk]
    · intro key2 hk hk2
      simp [signal_handler, hrec, hk, hk2]

/-- C6, witness: a concrete non-recording interrupt stops at once, and a
concrete recording interrupt answered `q` resumes. -/
theorem c6_witness :
    signal_handler ⟨false, false⟩ SIGINT 'q' = (⟨true, false⟩, false) ∧
    (signal_handler ⟨false, true⟩ SIGINT 'q').1 = ⟨false, true⟩ := by
  constructor
  · exact (c6_interrupt_policy ⟨false, false⟩ 'q').1 rfl
  · exact ((c6_interrupt_policy ⟨false, true⟩ 'q').2 rfl).2.2.1 (by decide)

/-- The output-mode validation block of `main`, run after the primary model
context is initialized and before the second (translation) context, the
buffers and the main processing loop: reject an unknown mode string with exit
code 1; normalize a legacy `--translate` flag on mode `original` to mode
`english`; reject `english`/`bilingual` on a non-multilingual model with exit
code 1; otherwise hand the resolved mode on. -/
def validate_output_mode (output_mode : String) (translate : Bool) (multilingual : Bool) :
    Except Nat String :=
  if output_mode ≠ "original" ∧ output_mode ≠ "english" ∧ output_mode ≠ "bilingual" then
    Except.error 1
  else
    let mode := if translate ∧ output_mode = "original" then "english" else output_mode
    if (mode = "english" ∨ mode = "bilingual") ∧ multilingual = false then
      Except.error 1
    else
      Except.ok mode

/-- The fate of the process around the validation block: a validation error
becomes the process exit code before the main loop is ever entered; otherwise
the main loop (abstracted as an arbitrary function of the resolved mode)
determines the exit code. -/
def run_with_validation (output_mode : String) (translate multilingual : Bool)
    (mainLoop : String → Nat) : Nat :=
  match validate_output_mode output_mode translate multilingual with
  | Except.error code => code
  | Except.ok mode => mainLoop mode

/-- C7: requesting mode `english` or `bilingual` with a non-multilingual
model makes the process exit with code 1 regardless of what the main loop
would do — the loop, and hence any inference, is never reached; an invalid
output-mode string likewise exits with code 1 for every model. -/
theorem c7_fail_fast (translate : Bool) (mainLoop : String → Nat) :
    (∀ mode, (mode = "english" ∨ mode = "bilingual") →
      run_with_validation mode translate false mainLoop = 1) ∧
    (∀ mode multilingual, mode ≠ "original" → mode ≠ "english" → mode ≠ "bilingual" →
      run_with_validation mode translate multilingual mainLoop = 1) := by
  constructor
  · intro mode h
    rcases h with rfl | rfl <;> cases translate <;> rfl
  · intro mode multilingual h1 h2 h3
    have hv : validate_output_mode mode translate multilingual = Except.error 1 := by
      rw [validate_output_mode, if_pos ⟨h1, h2, h3⟩]
    rw [run_with_validation, hv]

/-- C7, witness at concrete inputs. -/
theorem c7_witness :
    run_with_validation "bilingual" false false (fun _ => 0) = 1 ∧
    run_with_validation "spanish" true true (fun _ => 0) = 1 := by
  constructor
  · exact (c7_fail_fast false (fun _ => 0)).1 "bilingual" (Or.inr rfl)
  · exact (c7_fail_fast true (fun _ => 0)).2 "spanish" true (by decide) (by decide) (by decide)

/-- Auto-copy configuration: the enable flag and the duration/size caps. -/
structure AutoCopyParams where
  auto_copy_enabled : Bool
  auto_copy_max_duration_hours : Int
  auto_copy_max_size_bytes : Nat
deriving Repr, DecidableEq

/-- Auto-copy session state: the in-memory transcription buffer and the
at-most-once copy flag. -/
structure AutoCopyState where
  transcription_buffer : String
  has_been_copied : Bool
deriving Repr, DecidableEq

/-- The `should_auto_copy` predicate, evaluated both at every append site and
at the head of the final copy: false when auto-copy is disabled or a copy has
already happened, when the elapsed whole-hour session duration exceeds the
configured limit, or when the current buffer size exceeds the byte cap. -/
def should_auto_copy (p : AutoCopyParams) (s : AutoCopyState) (durationHours : Int) : Bool :=
  if p.auto_copy_enabled = false ∨ s.has_been_copied = true then false
  else if durationHours > p.auto_copy_max_duration_hours then false
  else if s.transcription_buffer.length > p.auto_copy_max_size_bytes then false
  else true

/-- One append site: every write into the auto-copy buffer in the printing
path is guarded by `params.auto_copy_enabled && should_auto_copy(...)`
evaluated at append time; when the guard fails the text is silently not
recorded. -/
def appendTranscription (p : AutoCopyParams) (s : AutoCopyState) (durationHours : Int)
    (text : String) : AutoCopyState :=
  if p.auto_copy_enabled = true ∧ should_auto_copy p s durationHours = true then
    { s with transcription_buffer := s.transcription_buffer ++ text }
  else
    s

/-- A session's appends in order, each with the whole-hour duration at which
it happens. -/
def runAppends (p : AutoCopyParams) : AutoCopyState → List (Int × String) → AutoCopyState
  | s, [] => s
  | s, e :: rest => runAppends p (appendTranscription p s e.1 e.2) rest

/-- The session-end `perform_auto_copy`: gated by the same
`should_auto_copy`, then re-checks emptiness, duration and size on the
trimmed content and hands it to the clipboard, marking the session copied on
success. Returns the new state and the content actually copied, if any. -/
def perform_auto_copy_final (p : AutoCopyParams) (s : AutoCopyState) (durationHours : Int)
    (clipboardOk : Bool) : AutoCopyState × Option String :=
  if should_auto_copy p s durationHours = false then (s, none)
  else
    let content := s.transcription_buffer.trim
    if content = "" then (s, none)
    else if durationHours > p.auto_copy_max_duration_hours then (s, none)
    else if content.length > p.auto_copy_max_size_bytes then (s, none)
    else if clipboardOk then ({ s with has_been_copied := true }, some content)
    else (s, none)

/-- Once false, the guard stays false as time moves forward with the state
unchanged: disabledness, the copied flag and the buffer size do not depend on
time, and an exceeded duration only grows. -/
theorem should_auto_copy_false_mono (p : AutoCopyParams) (s : AutoCopyState) (d d' : Int)
    (hdd : d ≤ d') (hf : should_auto_copy p s d = false) :
    should_auto_copy p s d' = false := by
  by_cases h1 : p.auto_copy_enabled = false ∨ s.has_been_copied = true
  · simp [should_auto_copy, h1]
  · by_cases h3 : s.transcription_buffer.length > p.auto_copy_max_size_bytes
    · by_cases h2 : d' > p.auto_copy_max_duration_hours <;>
        simp [should_auto_copy, h1, h2, h3]
    · have h2 : d > p.auto_copy_max_duration_hours := by
        by_contra hc
        simp [should_auto_copy, h1, hc, h3] at hf
      have h2' : d' > p.auto_copy_max_duration_hours := by omega
      simp [should_auto_copy, h1, h2']

/-- A buffer already over the byte cap forces the guard false at every time. -/
theorem should_auto_copy_false_of_size (p : AutoCopyParams) (s : AutoCopyState) (d : Int)
    (h : s.transcription_buffer.length > p.auto_copy_max_size_bytes) :
    should_auto_copy p s d = false := by
  by_cases h1 : p.auto_copy_enabled = false ∨ s.has_been_copied = true <;>
    by_cases h2 : d > p.auto_copy_max_duration_hours <;>
      simp [should_auto_copy, h1, h2, h]

/-- C10: every append is guarded at append time by the same
`should_auto_copy` predicate that gates the final copy; once that predicate
is false — in particular once the buffer size exceeds
`auto_copy_max_size_bytes`, once the duration limit has passed, or once a
copy has succeeded — no later append (at the same or a later time) changes
the session state, and the final copy at any later time copies nothing, so
text transcribed after that point never reaches the clipboard. -/
theorem c10_autocopy_guard (p : AutoCopyParams) (s : AutoCopyState) :
    (∀ d t, should_auto_copy p s d = false → appendTranscription p s d t = s) ∧
    (∀ d events, (∀ e ∈ events, d ≤ e.1) → should_auto_copy p s d = false →
      runAppends p s events = s) ∧
    (∀ events, s.transcription_buffer.length > p.auto_copy_max_size_bytes →
      runAppends p s events = s) ∧
    (∀ d d' ok, d ≤ d' → should_auto_copy p s d = false →
      (perform_auto_copy_final p s d' ok).2 = none) := by
  have happend : ∀ d t, should_auto_copy p s d = false → appendTranscription p s d t = s := by
    intro d t hf
    rw [appendTranscription, if_neg (by
      intro hcon
      rw [hf] at hcon
      exact Bool.false_ne_true hcon.2)]
  refine ⟨happend, ?_, ?_, ?_⟩
  · intro d events
    induction events with
    | nil =>
      intro _ _
      rfl
    | cons e rest ih =>
      intro hall hf
      have hfe : should_auto_copy p s e.1 = false :=
        should_auto_copy_false_mono p s d e.1 (hall e (List.mem_cons_self e rest)) hf
      rw [runAppends, happend e.1 e.2 hfe]
      exact ih (fun x hx => hall x (List.mem_cons_of_mem e hx)) hf
  · intro events hsize
    induction events with
    | nil => rfl
    | cons e rest ih =>
      rw [runAppends, happend e.1 e.2 (should_auto_copy_false_of_size p s e.1 hsize)]
      exact ih
  · intro d d' ok hdd hf
    rw [perform_auto_copy_final,
      if_pos (should_auto_copy_false_mono p s d d' hdd hf)]

/-- Concrete auto-copy configuration for the C10 witness: 1 MiB cap scaled
down to 3 bytes. -/
def c10Params : AutoCopyParams :=
  { auto_copy_enabled := true, auto_copy_max_duration_hours := 2, auto_copy_max_size_bytes := 3 }

/-- Concrete session whose buffer already exceeds the byte cap. -/
def c10State : AutoCopyState :=
  { transcription_buffer := "abcd", has_been_copied := false }

/-- C10, witness: with the buffer over the cap, a later append is dropped and
the final copy copies nothing. -/
theorem c10_witness :
    runAppends c10Params c10State [(0, "more"), (1, "text")] = c10State ∧
    (perform_auto_copy_final c10Params c10State 1 true).2 = none := by
  constructor
  · exact (c10_autocopy_guard c10Params c10State).2.2.1 [(0, "more"), (1, "text")] (by decide)
  · exact (c10_autocopy_guard c10Params c10State).2.2.2 0 1 true (by decide) (by decide)

end Recognize
